import Mathlib

/-!
# Verification of the TLS_Analyzer learning engine

Shallow embedding of the hand-built CNN training stack of the
`TLS_Analyzer` repository (files `include/SimpleCNN.hpp`,
`include/TLSDataProcessor.hpp`, `src/trainCNN.cpp`, `src/predictCNN.cpp`)
and proofs about it.

Modelling conventions:
* C++ `float` values are modelled as real numbers (`ℝ`); where the code
  explicitly tests for IEEE NaN/Inf on its *inputs* we use the `CFloat`
  type below, which adjoins the non-finite values to `ℝ`.
* C++ strings and stream tokenisation (`std::getline` with a delimiter,
  `std::stoi`) are modelled over `List Char`, mirroring the stream
  semantics: a `getline` call fails exactly when it extracts no character.
* `std::vector` indexing is modelled with `List.getD` (default `0`);
  every access exercised by the theorems below is in bounds.
* Randomness (`std::random_device`-seeded generators) is modelled by
  passing the randomly produced values as explicit parameters.
-/

namespace TLSAnalyzer

/-! ## Character-level stream utilities (models of std::getline / std::stoi) -/

/-- Split off the first token of `s` up to delimiter `c`.
Returns the token and `some rest` when the delimiter was found
(the delimiter itself is consumed), `none` otherwise.
Models a single `std::getline(stream, tok, c)` call on the remaining
stream contents. -/
def splitAtChar (c : Char) : List Char → List Char × Option (List Char)
  | [] => ([], none)
  | x :: xs =>
    if x = c then ([], some xs)
    else
      let r := splitAtChar c xs
      (x :: r.1, r.2)

/-- Accumulating splitter: all delimiter-separated fields of `s`,
including a trailing empty field when `s` ends with the delimiter. -/
def splitFieldsAux (c : Char) : List Char → List Char → List (List Char)
  | [], acc => [acc.reverse]
  | x :: xs, acc =>
    if x = c then acc.reverse :: splitFieldsAux c xs []
    else splitFieldsAux c xs (x :: acc)

/-- The token sequence produced by the C++ loop
`while (std::getline(stream, tok, c))` on stream contents `s`:
`std::getline` fails (extracting nothing) exactly at end-of-stream, so the
loop yields every field except that a trailing empty field after a final
delimiter is never produced, and an empty stream yields no token at all. -/
def getlineTokens (c : Char) (s : List Char) : List (List Char) :=
  let l := splitFieldsAux c s []
  if l.getLast? = some [] then l.dropLast else l

/-- Is `c` an ASCII decimal digit? -/
def isDigitChar (c : Char) : Bool := '0' ≤ c && c ≤ '9'

/-- Numeric value of a digit character. -/
def digitVal (c : Char) : ℤ := (c.toNat : ℤ) - ('0'.toNat : ℤ)

/-- Value of a block of leading digits, `none` when there is no digit. -/
def parseDigits : List Char → Option ℤ
  | [] => none
  | c :: cs =>
    if isDigitChar c then
      some (parseDigitsLoop cs (digitVal c))
    else none
where
  /-- Consume further digits, accumulating the value; stops (as
  `std::strtol` does) at the first non-digit. -/
  parseDigitsLoop : List Char → ℤ → ℤ
    | [], acc => acc
    | c :: cs, acc =>
      if isDigitChar c then parseDigitsLoop cs (acc * 10 + digitVal c)
      else acc

/-- Model of `std::stoi`: skip leading whitespace, accept an optional
sign, then require at least one digit; extra trailing characters are
ignored.  `none` models the `std::invalid_argument` exception.
(Out-of-range behaviour is not modelled; all values in this development
are small.) -/
def stoi? (s : List Char) : Option ℤ :=
  let s := s.dropWhile (fun c =>
    c = ' ' || c = '\t' || c = '\n' || c = '\r' || c = '\x0b' || c = '\x0c')
  match s with
  | '-' :: rest => (parseDigits rest).map (fun v => -v)
  | '+' :: rest => parseDigits rest
  | _ => parseDigits s

end TLSAnalyzer

namespace TLSAnalyzer

/-! Sanity checks on the stream model. -/

example : getlineTokens ';' "a;;b".data = ["a".data, [], "b".data] := by decide
example : getlineTokens ';' "a;".data = ["a".data] := by decide
example : getlineTokens ';' "".data = [] := by decide
example : getlineTokens ';' ";".data = [[]] := by decide
example : stoi? "100".data = some 100 := by decide
example : stoi? "-7x".data = some (-7) := by decide
example : stoi? "x7".data = none := by decide
example : stoi? "".data = none := by decide

/-! ## Float values with IEEE special values

`SimpleCNN::forward` tests its input entries with `std::isnan`/`std::isinf`.
Real numbers cannot represent those values, so sample features are drawn
from `CFloat`, which adjoins them.  All arithmetic in the engine is done
after the finiteness check, on the embedded real values. -/

/-- A C++ `float` as seen by the finiteness checks: a finite value
(modelled exactly as a real), a NaN, or a signed infinity. -/
inductive CFloat where
  | val : ℝ → CFloat
  | nan : CFloat
  | inf : Bool → CFloat

/-- `¬(std::isnan v) ∧ ¬(std::isinf v)`. -/
def CFloat.isFinite : CFloat → Bool
  | .val _ => true
  | .nan => false
  | .inf _ => false

/-- The embedded real value of a finite `CFloat` (`0` for the non-finite
values, which are never read after a passed finiteness check). -/
def CFloat.toReal : CFloat → ℝ
  | .val v => v
  | .nan => 0
  | .inf _ => 0

/-! ## Data model (`TLSDataProcessor.hpp`) -/

/-- `struct Sample`: one TLS session, a label and a flat feature vector. -/
structure Sample where
  label : ℤ
  features : List CFloat

/-- `PACKET_FEATURES = 2`, `STATS_FEATURES = 6`. -/
def PACKET_FEATURES : ℕ := 2
/-- The six statistics appended after the per-packet sequence. -/
def STATS_FEATURES : ℕ := 6

/-- Log-normalised packet size:
`clamp(log(size+1)/log(1501), 0, 1)`, written exactly as the source does
with `std::min(1.0f, std::max(0.0f, ·))`. -/
noncomputable def logNorm (size : ℤ) : ℝ :=
  min 1 (max 0 (Real.log ((size : ℝ) + 1) / Real.log 1501))

/-- One `size_direction` token of the feature string: the record is kept
only when a `'_'` occurs and both sides of it parse with `std::stoi`
(the `catch` in `parse_packet_features` drops the record otherwise). -/
def parseRecord (tok : List Char) : Option (ℤ × ℤ) :=
  match splitAtChar '_' tok with
  | (_, none) => none
  | (pre, some post) =>
    match stoi? pre, stoi? post with
    | some sz, some d => some (sz, d)
    | _, _ => none

/-- The valid `(size, direction)` records of a feature string, in order:
the token loop of `TLSDataProcessor::parse_packet_features`. -/
def packetRecords (featureStr : List Char) : List (ℤ × ℤ) :=
  (getlineTokens ';' featureStr).filterMap parseRecord

/-- The `packet_sizes` vector accumulated by `parse_packet_features`:
the log-normalised size of every valid record. -/
noncomputable def packetSizes (recs : List (ℤ × ℤ)) : List ℝ :=
  recs.map (fun r => logNorm r.1)

/-- The `directions` vector accumulated by `parse_packet_features`. -/
def packetDirections (recs : List (ℤ × ℤ)) : List ℝ :=
  recs.map (fun r => (r.2 : ℝ))

/-- The per-packet part of `sample.features` pushed by the token loop:
`normalized_size` then `direction` for every valid record. -/
noncomputable def packetFeatureList (recs : List (ℤ × ℤ)) : List CFloat :=
  recs.flatMap (fun r => [CFloat.val (logNorm r.1), CFloat.val (r.2 : ℝ)])

open Classical in
/-- `TLSDataProcessor::add_statistical_features`: the six statistics
appended once per sample — mean, max, min and standard deviation of the
normalised sizes, the fraction of records with direction `1.0f`, and the
log-compressed record count.  Empty input appends nothing (the early
`return`). -/
noncomputable def statsBlock (sizes directions : List ℝ) : List ℝ :=
  if sizes = [] then []
  else
    let avg_size := sizes.sum / (sizes.length : ℝ)
    let max_size := sizes.foldr max (sizes.headD 0)
    let min_size := sizes.foldr min (sizes.headD 0)
    let std_dev :=
      Real.sqrt ((sizes.map (fun s => (s - avg_size) * (s - avg_size))).sum
        / (sizes.length : ℝ))
    let outgoing := ((directions.filter (fun d => d = 1)).length : ℝ)
      / (directions.length : ℝ)
    let total_packets :=
      Real.log ((sizes.length : ℝ) + 1) / Real.log 101
    [avg_size, max_size, min_size, std_dev, outgoing, total_packets]

/-- The full feature vector built by `parse_packet_features` for one row:
per-packet features followed by the statistics block. -/
noncomputable def sampleFeatures (recs : List (ℤ × ℤ)) : List CFloat :=
  packetFeatureList recs
    ++ (statsBlock (packetSizes recs) (packetDirections recs)).map CFloat.val

/-! ## `TLSDataProcessor::load_data` -/

/-- The loader state threaded through the row loop: the `samples`,
`num_labels` and `max_sequence_length` members. -/
structure LoadState where
  samples : List Sample
  num_labels : ℤ
  max_sequence_length : ℕ

/-- Split one CSV row into label text and feature text, mirroring
`getline(iss, label_str, ',') && getline(iss, feature_str)`: the second
`getline` fails when nothing follows the first comma (or there is no
comma), and then the row yields no sample. -/
def rowSplit (line : List Char) : Option (List Char × List Char) :=
  match splitAtChar ',' line with
  | (_, none) => none
  | (labelStr, some rest) => if rest = [] then none else some (labelStr, rest)

/-- One iteration of the `while (std::getline(ifs, line))` loop of
`load_data`.  An empty line is skipped (`continue`); a row that fails
`rowSplit` is silently ignored; a label on which `std::stoi` throws
aborts the whole load (the exception propagates out of the constructor),
modelled by `Except.error`. -/
noncomputable def loadLine (st : LoadState) (line : List Char) : Except Unit LoadState :=
  if line = [] then .ok st
  else
    match rowSplit line with
    | none => .ok st
    | some (labelStr, featureStr) =>
      match stoi? labelStr with
      | none => .error ()
      | some lab =>
        let recs := packetRecords featureStr
        .ok ⟨st.samples ++ [⟨lab, sampleFeatures recs⟩],
             max st.num_labels (lab + 1),
             max st.max_sequence_length recs.length⟩

/-- `TLSDataProcessor::load_data` on the file's lines: the first line
(the header) is consumed and ignored, the remaining lines are folded
through `loadLine`. -/
noncomputable def load_data (lines : List (List Char)) : Except Unit LoadState :=
  (lines.drop 1).foldlM loadLine ⟨[], 0, 0⟩

/-! ## `TLSDataProcessor::normalize_features` -/

/-- Normalisation of one sample once the corpus-wide
`max_sequence_length` is known: detach the trailing statistics block when
there is one (`size() >= STATS_FEATURES`), right-pad the per-packet
sequence with `0.0f` to `max_sequence_length` packets, re-append the
statistics. -/
def normalizeSample (maxSeq : ℕ) (s : Sample) : Sample :=
  let n := s.features.length
  let stats := if STATS_FEATURES ≤ n then s.features.drop (n - STATS_FEATURES) else []
  let seqF := if STATS_FEATURES ≤ n then s.features.take (n - STATS_FEATURES) else s.features
  let current := seqF.length / PACKET_FEATURES
  let padded :=
    if current < maxSeq then
      seqF ++ List.replicate ((maxSeq - current) * PACKET_FEATURES) (CFloat.val 0)
    else seqF
  ⟨s.label, padded ++ stats⟩

/-- The corpus as it stands right before `shuffle_and_split`: the effect
of the constructor's `load_data(csv_path); normalize_features();` on the
file's lines.  Returns the normalised samples together with `num_labels`
and `max_sequence_length`.  (`shuffle_and_split` then permutes this list
with a `std::random_device`-seeded engine and cuts it 80/20; it adds and
removes nothing.) -/
noncomputable def processorCorpus (lines : List (List Char)) :
    Except Unit (List Sample × ℤ × ℕ) :=
  (load_data lines).map (fun st =>
    (st.samples.map (normalizeSample st.max_sequence_length),
     st.num_labels, st.max_sequence_length))

/-- `TLSDataProcessor::get_feature_dim`. -/
def get_feature_dim (maxSeq : ℕ) : ℕ := maxSeq * PACKET_FEATURES + STATS_FEATURES

/-! ## Activations (`class Activation`, `SimpleCNN.hpp`) -/

/-- Maximum of a list, as `*std::max_element(x.begin(), x.end())` on a
non-empty vector (the value on `[]` is irrelevant: the source never
dereferences `end()`). -/
def listMax : List ℝ → ℝ
  | [] => 0
  | [a] => a
  | a :: b :: rest => max a (listMax (b :: rest))

namespace Activation

/-- `Activation::relu`: elementwise `std::max(0.0f, x)`. -/
def relu (x : List ℝ) : List ℝ := x.map (fun v => max 0 v)

/-- The vector of stabilised exponentials inside `Activation::softmax`:
`exp(min(x[i] - max_val, 80.0f))`. -/
noncomputable def softmaxExpVec (x : List ℝ) : List ℝ :=
  x.map (fun v => Real.exp (min (v - listMax x) 80))

/-- The normalising denominator of `Activation::softmax`:
`sum = max(sum, 1e-7f)`. -/
noncomputable def softmaxDenom (x : List ℝ) : ℝ :=
  max (softmaxExpVec x).sum (1e-7)

/-- `Activation::softmax`: subtract the max, exponentiate with the
argument capped at `80`, floor the sum at `1e-7`, divide. -/
noncomputable def softmax (x : List ℝ) : List ℝ :=
  (softmaxExpVec x).map (fun e => e / softmaxDenom x)

end Activation

/-! ## Fully connected layer (`class FCLayer`) -/

/-- The parameter state of an `FCLayer`: sizes, `weights[output][input]`
row-major, `biases[output]`. -/
structure FCLayer where
  input_size : ℕ
  output_size : ℕ
  weights : List (List ℝ)
  biases : List ℝ

namespace FCLayer

/-- `weights[o][i]` with the `getD` convention. -/
def wAt (l : FCLayer) (o i : ℕ) : ℝ := (l.weights.getD o []).getD i 0

/-- `FCLayer::forward`: `out[o] = biases[o] + Σ_i weights[o][i]*in[i]`. -/
def forward (l : FCLayer) (input : List ℝ) : List ℝ :=
  (List.range l.output_size).map (fun o =>
    l.biases.getD o 0 +
      ((List.range l.input_size).map (fun i => l.wAt o i * input.getD i 0)).sum)

/-- `FCLayer::backward`.  The C++ loop, for each output `o` and input
`i`, first performs `weights[o][i] -= lr * gradient[o] * input[i]` and
then accumulates `input_gradient[i] += gradient[o] * weights[o][i]` — so
the accumulated term reads the *already updated* entry.  Row `o`'s
entries are each updated immediately before their only read, hence the
functional form below: the new matrix is computed first and the input
gradient is summed over the new matrix.  Biases get
`biases[o] -= lr * gradient[o]`.  Returns the updated layer and the
input gradient. -/
def backward (l : FCLayer) (input gradient : List ℝ) (lr : ℝ) :
    FCLayer × List ℝ :=
  let newWeights := (List.range l.output_size).map (fun o =>
    (List.range l.input_size).map (fun i =>
      l.wAt o i - lr * gradient.getD o 0 * input.getD i 0))
  let newBiases := (List.range l.output_size).map (fun o =>
    l.biases.getD o 0 - lr * gradient.getD o 0)
  let inputGradient := (List.range l.input_size).map (fun i =>
    ((List.range l.output_size).map (fun o =>
      gradient.getD o 0 * ((newWeights.getD o []).getD i 0))).sum)
  (⟨l.input_size, l.output_size, newWeights, newBiases⟩, inputGradient)

end FCLayer

/-! ## Convolution layer (`class ConvLayer`) -/

/-- The parameter state of a `ConvLayer`:
`weights[out_channel][in_channel][tap]` and per-output-channel biases. -/
structure ConvLayer where
  input_channels : ℕ
  output_channels : ℕ
  kernel_size : ℕ
  stride : ℕ
  padding : ℕ
  weights : List (List (List ℝ))
  biases : List ℝ

namespace ConvLayer

/-- `weights[oc][ic][k]` with the `getD` convention. -/
def wAt (l : ConvLayer) (oc ic k : ℕ) : ℝ :=
  ((l.weights.getD oc []).getD ic []).getD k 0

/-- `input_width = input.size() / input_channels` (integer division). -/
def inputWidth (l : ConvLayer) (inputLen : ℕ) : ℕ :=
  inputLen / l.input_channels

/-- `output_width = (input_width + 2*padding - kernel_size) / stride + 1`,
computed in `int` arithmetic.  All uses in this development have a
non-negative numerator, where C++ and Lean integer division agree. -/
def outputWidth (l : ConvLayer) (inputLen : ℕ) : ℤ :=
  ((l.inputWidth inputLen : ℤ) + 2 * l.padding - l.kernel_size) / l.stride + 1

/-- `ConvLayer::forward`: for every output channel and position, the bias
plus the sum over input channels and kernel taps of
`input[ic*input_width + w] * weights[oc][ic][k]` where
`w = ow*stride - padding + k`, taken only when `0 <= w < input_width`. -/
def forward (l : ConvLayer) (input : List ℝ) : List ℝ :=
  let wIn := l.inputWidth input.length
  let wOut := (l.outputWidth input.length).toNat
  (List.range l.output_channels).flatMap (fun oc =>
    (List.range wOut).map (fun ow =>
      let tap : ℕ → ℕ → ℝ := fun ic k =>
        let w : ℤ := (ow : ℤ) * l.stride - l.padding + k
        if 0 ≤ w ∧ w < (wIn : ℤ) then
          input.getD (ic * wIn + w.toNat) 0 * l.wAt oc ic k
        else 0
      l.biases.getD oc 0 +
        ((List.range l.input_channels).map (fun ic =>
          ((List.range l.kernel_size).map (tap ic)).sum)).sum))

/-- `ConvLayer::backward`, on the cached forward input and the cached
output length.  Weight update: each tap loses
`lr * Σ_ow gradient[oc*w_out+ow] * input[ic*w_in + ow*stride-padding+k]`
over the in-bounds positions; bias update: each output channel loses
`lr * Σ_ow gradient[oc*w_out+ow]`; the input gradient scatters the
upstream gradient back through taps with
`ow = (iw + padding - k) / stride` kept only when the division is exact
and `0 <= ow < w_out`.  (The input-gradient loop reads `weights` after
the update loops finished, hence it uses the updated taps.)  Returns the
updated layer and the input gradient. -/
def backward (l : ConvLayer) (input : List ℝ) (outputLen : ℕ)
    (gradient : List ℝ) (lr : ℝ) : ConvLayer × List ℝ :=
  let wIn := l.inputWidth input.length
  let wOut := outputLen / l.output_channels
  let weightGrad : ℕ → ℕ → ℕ → ℝ := fun oc ic k =>
    ((List.range wOut).map (fun (ow : ℕ) =>
      let w : ℤ := (ow : ℤ) * l.stride - l.padding + k
      if 0 ≤ w ∧ w < (wIn : ℤ) then
        gradient.getD (oc * wOut + ow) 0 * input.getD (ic * wIn + w.toNat) 0
      else 0)).sum
  let newWeights := (List.range l.output_channels).map (fun oc =>
    (List.range l.input_channels).map (fun ic =>
      (List.range l.kernel_size).map (fun k =>
        l.wAt oc ic k - lr * weightGrad oc ic k)))
  let newBiases := (List.range l.output_channels).map (fun oc =>
    l.biases.getD oc 0 -
      lr * ((List.range wOut).map (fun ow => gradient.getD (oc * wOut + ow) 0)).sum)
  let scatter : ℕ → ℕ → ℕ → ℕ → ℝ := fun ic iw oc k =>
    let num : ℤ := (iw : ℤ) + l.padding - k
    let ow : ℤ := num / l.stride
    if num % l.stride = 0 ∧ 0 ≤ ow ∧ ow < (wOut : ℤ) then
      gradient.getD (oc * wOut + ow.toNat) 0 *
        (((newWeights.getD oc []).getD ic []).getD k 0)
    else 0
  let inputGradient := (List.range l.input_channels).flatMap (fun ic =>
    (List.range wIn).map (fun iw =>
      ((List.range l.output_channels).map (fun oc =>
        ((List.range l.kernel_size).map (scatter ic iw oc)).sum)).sum))
  (⟨l.input_channels, l.output_channels, l.kernel_size, l.stride, l.padding,
    newWeights, newBiases⟩, inputGradient)

end ConvLayer

/-! ## The network (`class SimpleCNN`) -/

/-- The parameter state of a `SimpleCNN`: the three layers plus the
construction arguments.  The constructor fixes the topology
`conv1 = ConvLayer(1, 4, 5, 2)`, `fc1 = FCLayer((input_dim-4)/2*4, 16)`,
`fc2 = FCLayer(16, num_labels)` and fills the weights from
`std::random_device`-seeded distributions; networks are therefore built
here by supplying the parameter lists explicitly. -/
structure SimpleCNN where
  input_dim : ℕ
  num_labels : ℕ
  conv1 : ConvLayer
  fc1 : FCLayer
  fc2 : FCLayer

namespace SimpleCNN

/-- The per-layer values cached by `SimpleCNN::forward` for the later
backward pass, together with the returned probabilities. -/
structure Cache where
  conv1_input : List ℝ
  /-- `conv1.output` (pre-ReLU); its length is what `conv1.backward`
  reads back as `output.size()`. -/
  conv1_raw : List ℝ
  /-- `conv1_output`: post-ReLU. -/
  conv1_output : List ℝ
  /-- `fc1_output`: post-ReLU. -/
  fc1_output : List ℝ
  probs : List ℝ

/-- The arithmetic of `SimpleCNN::forward` after the input validity
check: conv1, ReLU, fc1, ReLU, fc2, softmax, caching each stage. -/
noncomputable def forwardFinite (net : SimpleCNN) (input : List ℝ) : Cache :=
  let conv1_raw := net.conv1.forward input
  let conv1_output := Activation.relu conv1_raw
  let fc1_raw := net.fc1.forward conv1_output
  let fc1_output := Activation.relu fc1_raw
  let logits := net.fc2.forward fc1_output
  ⟨input, conv1_raw, conv1_output, fc1_output, Activation.softmax logits⟩

/-- The message of the exception thrown by the input validity check. -/
def invalidInputMsg : String := "Invalid input detected in forward pass"

/-- `SimpleCNN::forward` including the input validity check: any NaN or
Inf entry throws `std::runtime_error(invalidInputMsg)` before any layer
runs; otherwise the layers run on the (finite) values. -/
noncomputable def forwardChecked (net : SimpleCNN) (input : List CFloat) :
    Except String Cache :=
  if input.all CFloat.isFinite then
    .ok (net.forwardFinite (input.map CFloat.toReal))
  else
    .error invalidInputMsg

/-- `SimpleCNN::forward`'s return value (the cache fields are the
side-effect part of the C++ member function). -/
noncomputable def forward (net : SimpleCNN) (input : List CFloat) :
    Except String (List ℝ) :=
  (net.forwardChecked input).map Cache.probs

/-- `SimpleCNN::compute_loss`:
`min(-log(max(output[label], 1e-7f)), 10.0f)`.  (A negative label would
be out-of-bounds UB in C++; `getD` with `label.toNat` models the
in-bounds cases, which are the only ones exercised.) -/
noncomputable def compute_loss (output : List ℝ) (label : ℤ) : ℝ :=
  min (-Real.log (max (output.getD label.toNat 0) (1e-7))) 10

/-- `SimpleCNN::clip_gradients`: rescale to L2 norm `max_norm` when the
norm exceeds it. -/
noncomputable def clip_gradients (gradients : List ℝ) (max_norm : ℝ) :
    List ℝ :=
  let norm := Real.sqrt ((gradients.map (fun g => g * g)).sum)
  if max_norm < norm then gradients.map (fun g => g * (max_norm / norm))
  else gradients

/-- `SimpleCNN::apply_relu_gradient`: pass the upstream gradient where
the forward activation output was `> 0`, zero elsewhere. -/
noncomputable def apply_relu_gradient (upstream activation : List ℝ) : List ℝ :=
  (List.range upstream.length).map (fun i =>
    if 0 < activation.getD i 0 then upstream.getD i 0 else 0)

/-- `std::isnan(loss) || std::isinf(loss)` on the computed loss.  The
loss is a genuine real number in this semantics, so the test is
identically false; it is kept to mirror the source's control flow. -/
def lossIsNanOrInf (loss : ℝ) : Bool := false

/-- The accumulator of the sample loop in `SimpleCNN::train_batch`:
the mutable network plus `total_loss` and `valid_samples`. -/
structure TrainAcc where
  net : SimpleCNN
  total_loss : ℝ
  valid_samples : ℕ

/-- The initial gradient of `train_batch`:
`gradient[i] = output[i]` for `i < num_labels`, then
`gradient[label] -= 1` (out-of-range labels would be UB in C++;
`List.set` leaves the vector unchanged there). -/
def outputGradient (numLabels : ℕ) (output : List ℝ) (label : ℤ) : List ℝ :=
  let g := (List.range numLabels).map (fun i => output.getD i 0)
  g.set label.toNat (g.getD label.toNat 0 - 1)

/-- One iteration of the sample loop of `SimpleCNN::train_batch`:
forward (a thrown invalid-input error is caught by the `catch`, skipping
the sample), loss, the NaN/Inf skip check, loss accumulation, then the
clipped backward pass through fc2, fc1 (through ReLU) and conv1 (through
ReLU), updating all parameters in place. -/
noncomputable def trainSampleStep (lr : ℝ) (acc : TrainAcc) (s : Sample) :
    TrainAcc :=
  match acc.net.forwardChecked s.features with
  | .error _ => acc
  | .ok cache =>
    let loss := compute_loss cache.probs s.label
    if lossIsNanOrInf loss then acc
    else
      let gradient := clip_gradients
        (outputGradient acc.net.num_labels cache.probs s.label) 1
      let (fc2', fc2_grad) := acc.net.fc2.backward cache.fc1_output gradient lr
      let fc2_grad := clip_gradients fc2_grad 1
      let fc1_relu_grad := apply_relu_gradient fc2_grad cache.fc1_output
      let (fc1', fc1_grad) := acc.net.fc1.backward cache.conv1_output fc1_relu_grad lr
      let fc1_grad := clip_gradients fc1_grad 1
      let conv1_relu_grad := apply_relu_gradient fc1_grad cache.conv1_output
      let (conv1', _) := acc.net.conv1.backward cache.conv1_input
        cache.conv1_raw.length conv1_relu_grad lr
      ⟨⟨acc.net.input_dim, acc.net.num_labels, conv1', fc1', fc2'⟩,
       acc.total_loss + loss, acc.valid_samples + 1⟩

/-- `SimpleCNN::train_batch`: run the sample loop, then return
`total_loss / valid_samples` (or `0.0f` when no sample was valid)
together with the updated network. -/
noncomputable def train_batch (net : SimpleCNN) (batch : List Sample)
    (lr : ℝ) : ℝ × SimpleCNN :=
  let acc := batch.foldl (trainSampleStep lr) ⟨net, 0, 0⟩
  (if 0 < acc.valid_samples then acc.total_loss / (acc.valid_samples : ℝ)
   else 0, acc.net)

/-! ## Persistence (`save_model` / `load_model`)

`SimpleCNN::save_model` opens the file and writes only the fixed 15-byte
tag `"SimpleCNN_Model"` — its own comment says the weight serialisation
"should be implemented here" but is simplified away.  `load_model` throws
when the file cannot be opened, and otherwise reads nothing at all and
returns `SimpleCNN(input_dim, num_labels)` — a freshly initialised
network with new random weights, modelled by the explicit `fresh`
parameter.  A file system is modelled as the optional contents of the
one path involved: `none` means the file is missing / cannot be opened. -/

/-- The bytes `SimpleCNN::save_model` writes for a network: the constant
tag, independent of every parameter of `net`. -/
def save_model (net : SimpleCNN) : List Char := "SimpleCNN_Model".data

/-- The message of the exception `load_model` throws when the file
cannot be opened (the path used by `trainCNN.cpp`). -/
def loadFailMsg : String := "Failed to load model from: ../model/tls_model.bin"

/-- `SimpleCNN::load_model`: throws when the file is missing, otherwise
ignores the contents entirely (no header read, no dimension validation)
and returns the freshly constructed network `fresh` (whose random
initialisation is the `fresh` parameter). -/
def load_model (contents : Option (List Char)) (input_dim num_labels : ℕ)
    (fresh : SimpleCNN) : Except String SimpleCNN :=
  match contents with
  | none => .error loadFailMsg
  | some _ => .ok fresh

end SimpleCNN

/-! ## The predictor's feature loader (`predictCNN.cpp`) -/

/-- `load_features_from_file` of `predictCNN.cpp` on the file's first
line: tokens split on `';'`, a record kept when `'_'` occurs, **no**
`try`/`catch` around the two `std::stoi` calls (a parse failure throws
out of the function, modelled by `Except.error`), the size normalised as
`size / 1500.0f` — linear, with no logarithm and no clamping — and the
vector zero-padded up to `feature_dim`. -/
noncomputable def load_features_from_file (line : List Char) (feature_dim : ℕ) :
    Except Unit (List ℝ) := do
  let pieces ← (getlineTokens ';' line).foldlM (fun (acc : List ℝ) tok => do
    match splitAtChar '_' tok with
    | (_, none) => pure acc
    | (pre, some post) =>
      match stoi? pre, stoi? post with
      | some sz, some d =>
        pure (acc ++ [(sz : ℝ) / 1500, (d : ℝ)])
      | _, _ => Except.error ()) []
  if pieces.length < feature_dim then
    pure (pieces ++ List.replicate (feature_dim - pieces.length) 0)
  else
    pure pieces

/-! ## Helper lemmas -/

theorem listMax_mem : ∀ (x : List ℝ), x ≠ [] → listMax x ∈ x
  | [a], _ => by simp [listMax]
  | a :: b :: rest, _ => by
    have ih := listMax_mem (b :: rest) (by simp)
    simp only [listMax]
    rcases le_total a (listMax (b :: rest)) with h | h
    · rw [max_eq_right h]
      exact List.mem_cons_of_mem _ ih
    · rw [max_eq_left h]
      exact List.mem_cons_self _ _

theorem le_listMax : ∀ (x : List ℝ) (a : ℝ), a ∈ x → a ≤ listMax x
  | [b], a, h => by
    simp only [List.mem_singleton] at h
    simp [listMax, h]
  | b :: c :: rest, a, h => by
    simp only [listMax]
    rcases List.mem_cons.mp h with rfl | h'
    · exact le_max_left _ _
    · exact le_trans (le_listMax (c :: rest) a h') (le_max_right _ _)

theorem listMax_map_add : ∀ (x : List ℝ), x ≠ [] → ∀ c : ℝ,
    listMax (x.map (fun v => v + c)) = listMax x + c
  | [a], _, c => by simp [listMax]
  | a :: b :: rest, _, c => by
    have ih := listMax_map_add (b :: rest) (by simp) c
    simp only [List.map_cons, listMax] at ih ⊢
    rw [ih, max_add_add_right]

theorem listSum_map_div (l : List ℝ) (d : ℝ) :
    (l.map (fun e => e / d)).sum = l.sum / d := by
  induction l with
  | nil => simp
  | cons a t ih => simp [ih, add_div]

namespace Activation

theorem softmaxExpVec_nonneg (x : List ℝ) :
    ∀ e ∈ softmaxExpVec x, 0 ≤ e := by
  intro e he
  simp only [softmaxExpVec, List.mem_map] at he
  obtain ⟨v, _, rfl⟩ := he
  exact (Real.exp_pos _).le

/-- The stabilisation makes one exponential exactly `exp 0 = 1`, so the
raw sum is at least `1`. -/
theorem one_le_softmaxExpSum (x : List ℝ) (hx : x ≠ []) :
    1 ≤ (softmaxExpVec x).sum := by
  have hmem : Real.exp (min (listMax x - listMax x) 80) ∈ softmaxExpVec x := by
    simp only [softmaxExpVec, List.mem_map]
    exact ⟨listMax x, listMax_mem x hx, rfl⟩
  have h1 : Real.exp (min (listMax x - listMax x) 80) = 1 := by
    norm_num
  calc (1 : ℝ) = Real.exp (min (listMax x - listMax x) 80) := h1.symm
    _ ≤ (softmaxExpVec x).sum :=
        List.single_le_sum (softmaxExpVec_nonneg x) _ hmem

theorem softmaxDenom_eq (x : List ℝ) (hx : x ≠ []) :
    softmaxDenom x = (softmaxExpVec x).sum := by
  have h := one_le_softmaxExpSum x hx
  unfold softmaxDenom
  rw [max_eq_left]
  linarith

theorem softmax_sum_eq_one (x : List ℝ) (hx : x ≠ []) :
    (softmax x).sum = 1 := by
  have h1 := one_le_softmaxExpSum x hx
  unfold softmax
  rw [listSum_map_div, softmaxDenom_eq x hx, div_self]
  linarith

theorem softmaxExpVec_shift (x : List ℝ) (hx : x ≠ []) (c : ℝ) :
    softmaxExpVec (x.map (fun v => v + c)) = softmaxExpVec x := by
  unfold softmaxExpVec
  rw [listMax_map_add x hx c, List.map_map]
  apply List.map_congr_left
  intro v _
  simp only [Function.comp_apply]
  ring_nf

end Activation

/-! ## C7: softmax sums to one, is shift-invariant, denominator floored -/

/-- **C7.** For every finite (non-empty) input vector the softmax output
sums to `1` — in particular within `1e-5`; softmax is invariant under
adding a constant to every element; and the normalising denominator is
floored at `1e-7`, so the division is never by zero. -/
theorem C7_softmax_normalized (x : List ℝ) (hx : x ≠ []) :
    |(Activation.softmax x).sum - 1| ≤ 1e-5 ∧
    (∀ c : ℝ, Activation.softmax (x.map (fun v => v + c)) =
      Activation.softmax x) ∧
    (1e-7 : ℝ) ≤ Activation.softmaxDenom x := by
  refine ⟨?_, ?_, ?_⟩
  · rw [Activation.softmax_sum_eq_one x hx]
    norm_num
  · intro c
    unfold Activation.softmax Activation.softmaxDenom
    rw [Activation.softmaxExpVec_shift x hx c]
  · exact le_max_right _ _

/-- Witness for C7 at the concrete vector `[1, 2]`. -/
theorem C7_softmax_normalized_witness :
    ([1, 2] : List ℝ) ≠ [] ∧
    (|(Activation.softmax [1, 2]).sum - 1| ≤ 1e-5 ∧
     (∀ c : ℝ, Activation.softmax (([1, 2] : List ℝ).map (fun v => v + c)) =
       Activation.softmax [1, 2]) ∧
     (1e-7 : ℝ) ≤ Activation.softmaxDenom [1, 2]) :=
  ⟨by simp, C7_softmax_normalized [1, 2] (by simp)⟩

/-! ## C10: the forward input validity check -/

/-- **C10.** `SimpleCNN::forward` throws `"Invalid input detected in
forward pass"` exactly when the input vector contains a NaN or Inf
element; on an all-finite input no such error is raised. -/
theorem C10_forward_rejects_nonfinite (net : SimpleCNN) (input : List CFloat) :
    SimpleCNN.forward net input = Except.error SimpleCNN.invalidInputMsg ↔
      ∃ v ∈ input, CFloat.isFinite v = false := by
  unfold SimpleCNN.forward SimpleCNN.forwardChecked
  by_cases h : input.all CFloat.isFinite
  · rw [if_pos h]
    simp only [Except.map]
    constructor
    · intro hc
      exact absurd hc (by simp)
    · rintro ⟨v, hv, hfin⟩
      have := (List.all_eq_true.mp h) v hv
      rw [this] at hfin
      cases hfin
  · rw [if_neg h]
    simp only [Except.map]
    constructor
    · intro _
      rcases List.all_eq_false.mp (Bool.eq_false_iff.mpr h) with ⟨v, hv, hfin⟩
      exact ⟨v, hv, by simpa using hfin⟩
    · intro _
      trivial

/-! ## Concrete networks used by several counterexamples

All parameters are explicit; shapes follow the `SimpleCNN` constructor
with `input_dim = 6`, `num_labels = 2`:
`conv1 = ConvLayer(1,4,5,2)` (output width `(6-5)/2+1 = 1`),
`fc1 = FCLayer((6-4)/2*4, 16) = FCLayer(4, 16)`, `fc2 = FCLayer(16, 2)`. -/

/-- An all-zero `ConvLayer(1, 4, 5, 2)`. -/
def zeroConv : ConvLayer :=
  ⟨1, 4, 5, 2, 0, List.replicate 4 (List.replicate 1 (List.replicate 5 0)),
   List.replicate 4 0⟩

/-- An all-zero `FCLayer(i, o)`. -/
def zeroFC (i o : ℕ) : FCLayer :=
  ⟨i, o, List.replicate o (List.replicate i 0), List.replicate o 0⟩

/-- A `SimpleCNN(6, 2)` whose parameters are all zero except the `fc2`
biases, which are `[b, 0]`. -/
def fc2BiasNet (b : ℝ) : SimpleCNN :=
  ⟨6, 2, zeroConv, zeroFC 4 16,
   ⟨16, 2, List.replicate 2 (List.replicate 16 0), [b, 0]⟩⟩

/-- The all-zero `SimpleCNN(6, 2)`. -/
def zeroNet : SimpleCNN := fc2BiasNet 0

/-- Six finite zero features: a valid input vector of dimension 6. -/
def zeros6 : List CFloat := List.replicate 6 (CFloat.val 0)

/-! ## C6: `load_model` fallback behaviour -/

/-- **C6 counterexample.** With the checkpoint file missing,
`SimpleCNN::load_model` does *not* return a freshly initialized network:
it throws `"Failed to load model from: ..."` (the fallback to the fresh
model happens in the caller `trainCNN.cpp`, which catches this
exception). -/
theorem C6_counterexample :
    SimpleCNN.load_model none 6 2 zeroNet =
      Except.error SimpleCNN.loadFailMsg := rfl

/-- **C6 (amended).** When the checkpoint file cannot be opened,
`load_model` throws; whenever the file opens — whatever its contents,
truncated or dimension-mismatched included, since nothing is read and no
header is validated — it returns the freshly initialized network. -/
theorem C6_load_model_behaviour (input_dim num_labels : ℕ)
    (fresh : SimpleCNN) (contents : List Char) :
    SimpleCNN.load_model none input_dim num_labels fresh =
      Except.error SimpleCNN.loadFailMsg ∧
    SimpleCNN.load_model (some contents) input_dim num_labels fresh =
      Except.ok fresh :=
  ⟨rfl, rfl⟩

/-! ## C4: `FCLayer::backward` -/

theorem getD_range_map {α : Type} (f : ℕ → α) {n o : ℕ} (h : o < n) (d : α) :
    ((List.range n).map f).getD o d = f o := by
  simp [List.getD_eq_getElem?_getD, List.getElem?_map, List.getElem?_range, h]

theorem listRangeMapSum (n : ℕ) (f : ℕ → ℝ) :
    ((List.range n).map f).sum = ∑ j ∈ Finset.range n, f j := by
  induction n with
  | zero => simp
  | succ m ih => rw [List.range_succ, Finset.sum_range_succ, List.map_append,
      List.sum_append, ih]; simp

/-- The input gradient `FCLayer::backward` is documented to return.
Modelled from the spec's words: "`dIn = Wᵗ·dOut`", with `W` the weight
matrix at entry to `backward` (before the in-place SGD update). -/
def FCLayer.specInputGradient (l : FCLayer) (gradient : List ℝ) : List ℝ :=
  (List.range l.input_size).map (fun i =>
    ((List.range l.output_size).map (fun o => l.wAt o i * gradient.getD o 0)).sum)

/-- **C4 counterexample.** A 1×1 layer with weight `1`, cached input
`[1]`, upstream gradient `[1]` and learning rate `1`: the code returns
input gradient `[0]` (it reads the weight *after* the in-place update
`1 - 1·1·1 = 0`), while the claimed `Wᵗ·dOut` with `W` taken at entry is
`[1]`. -/
theorem C4_counterexample :
    (FCLayer.backward ⟨1, 1, [[1]], [0]⟩ [1] [1] 1).2 = [0] ∧
    FCLayer.specInputGradient ⟨1, 1, [[1]], [0]⟩ [1] = [1] ∧
    ([0] : List ℝ) ≠ [1] := by
  refine ⟨?_, ?_, by simp⟩
  · simp [FCLayer.backward, FCLayer.wAt, List.range_succ]
  · simp [FCLayer.specInputGradient, FCLayer.wAt, List.range_succ]

/-- **C4 (amended).** `FCLayer::backward` updates
`weights[o][i] ← W[o][i] − lr·dOut[o]·in[i]` and
`biases[o] ← b[o] − lr·dOut[o]` as claimed, but its returned input
gradient reads the *already updated* weights: it equals
`Wᵗ·dOut − lr·(Σ_o dOut[o]²)·in`, i.e. `(W')ᵗ·dOut` for the updated
matrix `W'`, not `Wᵗ·dOut` for the entry matrix `W`. -/
theorem C4_fc_backward (l : FCLayer) (input gradient : List ℝ) (lr : ℝ)
    (o i : ℕ) (ho : o < l.output_size) (hi : i < l.input_size) :
    (((l.backward input gradient lr).1.weights.getD o []).getD i 0 =
      l.wAt o i - lr * gradient.getD o 0 * input.getD i 0) ∧
    ((l.backward input gradient lr).1.biases.getD o 0 =
      l.biases.getD o 0 - lr * gradient.getD o 0) ∧
    ((l.backward input gradient lr).2.getD i 0 =
      (l.specInputGradient gradient).getD i 0 -
        lr * (∑ j ∈ Finset.range l.output_size, gradient.getD j 0 ^ 2) *
          input.getD i 0) := by
  unfold FCLayer.backward FCLayer.specInputGradient
  simp only
  refine ⟨?_, ?_, ?_⟩
  · rw [getD_range_map _ ho, getD_range_map _ hi]
  · rw [getD_range_map _ ho]
  · rw [getD_range_map _ hi, getD_range_map _ hi]
    have hw : ∀ o' ∈ List.range l.output_size,
        (fun o'' => gradient.getD o'' 0 *
          ((((List.range l.output_size).map (fun o3 =>
            (List.range l.input_size).map (fun i3 =>
              l.wAt o3 i3 - lr * gradient.getD o3 0 * input.getD i3 0))).getD
                o'' []).getD i 0)) o' =
        (fun o'' => gradient.getD o'' 0 *
          (l.wAt o'' i - lr * gradient.getD o'' 0 * input.getD i 0)) o' := by
      intro o' ho'
      simp only
      rw [getD_range_map _ (List.mem_range.mp ho'), getD_range_map _ hi]
    rw [List.map_congr_left hw, listRangeMapSum, listRangeMapSum]
    rw [Finset.sum_congr rfl (fun j _ => by ring :
      ∀ j ∈ Finset.range l.output_size,
        gradient.getD j 0 * (l.wAt j i - lr * gradient.getD j 0 * input.getD i 0) =
          l.wAt j i * gradient.getD j 0 -
            lr * gradient.getD j 0 ^ 2 * input.getD i 0)]
    rw [Finset.sum_sub_distrib]
    congr 1
    rw [Finset.mul_sum, Finset.sum_mul]

/-- Witness for C4 at a concrete 2×1 layer. -/
theorem C4_fc_backward_witness :
    ((1 : ℕ) < (⟨1, 2, [[2], [3]], [5, 7]⟩ : FCLayer).output_size ∧
     (0 : ℕ) < (⟨1, 2, [[2], [3]], [5, 7]⟩ : FCLayer).input_size) ∧
    ((((FCLayer.backward ⟨1, 2, [[2], [3]], [5, 7]⟩ [11] [13, 17]
        (1/2)).1.weights.getD 1 []).getD 0 0 =
      (⟨1, 2, [[2], [3]], [5, 7]⟩ : FCLayer).wAt 1 0 -
        (1/2) * ([13, 17] : List ℝ).getD 1 0 * ([11] : List ℝ).getD 0 0) ∧
     ((FCLayer.backward ⟨1, 2, [[2], [3]], [5, 7]⟩ [11] [13, 17]
        (1/2)).1.biases.getD 1 0 =
      ([5, 7] : List ℝ).getD 1 0 - (1/2) * ([13, 17] : List ℝ).getD 1 0) ∧
     ((FCLayer.backward ⟨1, 2, [[2], [3]], [5, 7]⟩ [11] [13, 17]
        (1/2)).2.getD 0 0 =
      ((⟨1, 2, [[2], [3]], [5, 7]⟩ : FCLayer).specInputGradient
          [13, 17]).getD 0 0 -
        (1/2) * (∑ j ∈ Finset.range 2, ([13, 17] : List ℝ).getD j 0 ^ 2) *
          ([11] : List ℝ).getD 0 0)) :=
  ⟨⟨by norm_num, by norm_num⟩,
   C4_fc_backward ⟨1, 2, [[2], [3]], [5, 7]⟩ [11] [13, 17] (1/2) 1 0
     (by norm_num) (by norm_num)⟩

/-! ## Evaluating the concrete networks -/

theorem getD_replicate {α : Type} (n i : ℕ) (a d : α) :
    (List.replicate n a).getD i d = if i < n then a else d := by
  simp only [List.getD_eq_getElem?_getD, List.getElem?_replicate]
  split <;> rfl

theorem getD_replicate_zero (n i : ℕ) :
    (List.replicate n (0 : ℝ)).getD i 0 = 0 := by
  rw [getD_replicate]
  split <;> rfl

theorem rangeMapConstZero (n : ℕ) (f : ℕ → ℝ)
    (h : ∀ j, j < n → f j = 0) :
    (List.range n).map f = List.replicate n 0 := by
  induction n with
  | zero => simp
  | succ m ih =>
    rw [List.range_succ, List.map_append, ih (fun j hj => h j (by omega)),
      List.replicate_succ' m]
    simp [h m (by omega)]

theorem zeroConv_wAt (oc ic k : ℕ) : zeroConv.wAt oc ic k = 0 := by
  unfold zeroConv ConvLayer.wAt
  simp only
  rw [getD_replicate]
  split
  · rw [getD_replicate]
    split
    · exact getD_replicate_zero 5 k
    · rfl
  · rfl

theorem zeroConv_forward_zeros :
    zeroConv.forward (List.replicate 6 (0 : ℝ)) = List.replicate 4 0 := by
  simp only [ConvLayer.forward]
  norm_num [zeroConv, ConvLayer.inputWidth, ConvLayer.outputWidth, ConvLayer.wAt,
    getD_replicate, List.range_succ, List.replicate]

/-- A fully connected layer whose weight matrix is all zero outputs its
bias vector (read off at positions `0, …, output_size-1`) on every
input. -/
theorem zeroWeightFC_forward (i o : ℕ) (bs : List ℝ) (x : List ℝ) :
    FCLayer.forward ⟨i, o, List.replicate o (List.replicate i 0), bs⟩ x =
      (List.range o).map (fun j => bs.getD j 0) := by
  unfold FCLayer.forward
  apply List.map_congr_left
  intro j _
  have hz : ∀ q, q < i →
      (FCLayer.wAt ⟨i, o, List.replicate o (List.replicate i 0), bs⟩ j q) *
        x.getD q 0 = 0 := by
    intro q _
    unfold FCLayer.wAt
    simp only
    rw [getD_replicate]
    split
    · rw [getD_replicate_zero, zero_mul]
    · simp
  rw [rangeMapConstZero i _ hz]
  simp

theorem relu_replicate_zero (n : ℕ) :
    Activation.relu (List.replicate n (0 : ℝ)) = List.replicate n 0 := by
  unfold Activation.relu
  rw [List.map_replicate]
  simp

/-- The full forward arithmetic of `fc2BiasNet b` on the zero input:
conv1 and fc1 output zeros, fc2 outputs the logits `[b, 0]`. -/
theorem fc2BiasNet_forwardFinite (b : ℝ) :
    SimpleCNN.forwardFinite (fc2BiasNet b) (List.replicate 6 0) =
      ⟨List.replicate 6 0, List.replicate 4 0, List.replicate 4 0,
       List.replicate 16 0, Activation.softmax [b, 0]⟩ := by
  have hconv : (fc2BiasNet b).conv1.forward (List.replicate 6 0) =
      List.replicate 4 0 := zeroConv_forward_zeros
  have hfc1 : (fc2BiasNet b).fc1.forward (List.replicate 4 0) =
      List.replicate 16 0 := by
    have h := zeroWeightFC_forward 4 16 (List.replicate 16 0) (List.replicate 4 0)
    rw [show (fc2BiasNet b).fc1 = ⟨4, 16, List.replicate 16 (List.replicate 4 0),
      List.replicate 16 0⟩ from rfl, h]
    exact rangeMapConstZero 16 _ (fun j _ => getD_replicate_zero 16 j)
  have hfc2 : (fc2BiasNet b).fc2.forward (List.replicate 16 0) = [b, 0] := by
    have h := zeroWeightFC_forward 16 2 [b, 0] (List.replicate 16 0)
    rw [show (fc2BiasNet b).fc2 = ⟨16, 2, List.replicate 2 (List.replicate 16 0),
      [b, 0]⟩ from rfl, h]
    simp [List.range_succ]
  unfold SimpleCNN.forwardFinite
  simp only [hconv, relu_replicate_zero, hfc1, hfc2]

/-- `forwardChecked` on the six finite zeros: the validity check passes
and the cache is the one computed above. -/
theorem fc2BiasNet_forwardChecked (b : ℝ) :
    SimpleCNN.forwardChecked (fc2BiasNet b) zeros6 =
      Except.ok ⟨List.replicate 6 0, List.replicate 4 0, List.replicate 4 0,
        List.replicate 16 0, Activation.softmax [b, 0]⟩ := by
  unfold SimpleCNN.forwardChecked
  rw [if_pos (by decide)]
  rw [show zeros6.map CFloat.toReal = List.replicate 6 0 by
    unfold zeros6
    rw [List.map_replicate]
    rfl]
  rw [fc2BiasNet_forwardFinite]

/-- Softmax of the two-element logits `[b, 0]` with `b ≥ 0`:
the stabilised exponentials are `[1, exp (-b)]` and the denominator is
their sum. -/
theorem softmax_pair (b : ℝ) (hb : 0 ≤ b) :
    Activation.softmax [b, 0] =
      [1 / (1 + Real.exp (-b)), Real.exp (-b) / (1 + Real.exp (-b))] := by
  have hmax : listMax [b, 0] = b := by
    unfold listMax
    exact max_eq_left hb
  have hvec : Activation.softmaxExpVec [b, 0] = [1, Real.exp (-b)] := by
    unfold Activation.softmaxExpVec
    rw [hmax]
    simp only [List.map_cons, List.map_nil]
    congr 1
    · rw [sub_self, min_eq_left (by norm_num), Real.exp_zero]
    · congr 1
      rw [zero_sub, min_eq_left (by linarith)]
  have hsum : (Activation.softmaxExpVec [b, 0]).sum = 1 + Real.exp (-b) := by
    rw [hvec]
    simp
  have hden : Activation.softmaxDenom [b, 0] = 1 + Real.exp (-b) := by
    unfold Activation.softmaxDenom
    rw [hsum, max_eq_left]
    have := Real.exp_pos (-b)
    norm_num
    linarith
  unfold Activation.softmax
  rw [hvec, hden]
  simp

/-! ## C1: persistence round-trip -/

/-- **C1.** `save_model` writes the same bytes for two networks that
differ in their `fc2` biases and produce different forward outputs on
the all-zero input — the file contains no header and no parameters, so
no loader can reproduce the original network's outputs from it; and
`load_model` indeed ignores the file contents, returning whatever
freshly initialised network the constructor produces.  The round-trip
`load(save(net))` therefore does not reproduce the original forward
outputs. -/
theorem C1_save_load_roundtrip_broken :
    SimpleCNN.save_model zeroNet = SimpleCNN.save_model (fc2BiasNet 1) ∧
    (∀ fresh : SimpleCNN,
      SimpleCNN.load_model (some (SimpleCNN.save_model (fc2BiasNet 1))) 6 2 fresh =
        Except.ok fresh) ∧
    SimpleCNN.forward zeroNet zeros6 ≠ SimpleCNN.forward (fc2BiasNet 1) zeros6 := by
  refine ⟨rfl, fun _ => rfl, ?_⟩
  have h0 : SimpleCNN.forward zeroNet zeros6 =
      Except.ok [1 / 2, 1 / 2] := by
    unfold SimpleCNN.forward zeroNet
    rw [fc2BiasNet_forwardChecked 0]
    simp only [Except.map]
    rw [softmax_pair 0 le_rfl]
    norm_num [Real.exp_zero]
  have h1 : SimpleCNN.forward (fc2BiasNet 1) zeros6 =
      Except.ok [1 / (1 + Real.exp (-1)), Real.exp (-1) / (1 + Real.exp (-1))] := by
    unfold SimpleCNN.forward
    rw [fc2BiasNet_forwardChecked 1]
    simp only [Except.map]
    rw [softmax_pair 1 zero_le_one]
  rw [h0, h1]
  intro heq
  have hexp : (0 : ℝ) < Real.exp (-1) := Real.exp_pos _
  have hlist : ([1 / 2, 1 / 2] : List ℝ) =
      [1 / (1 + Real.exp (-1)), Real.exp (-1) / (1 + Real.exp (-1))] := by
    injection heq
  have hhead : (1 : ℝ) / 2 = 1 / (1 + Real.exp (-1)) := by
    injection hlist
  have hne : (1 : ℝ) + Real.exp (-1) ≠ 0 := by linarith
  have h2 : (1 : ℝ) + Real.exp (-1) = 2 := by
    field_simp at hhead
    linarith
  have h3 : Real.exp (-1) = 1 := by linarith
  nth_rewrite 2 [← Real.exp_zero] at h3
  have h4 : (-1 : ℝ) = 0 := Real.exp_eq_exp.mp h3
  norm_num at h4

/-! ## C9: the per-sample boundary of `train_batch` -/

theorem exp_neg_ten_large : (1e-7 : ℝ) < Real.exp (-10) := by
  have h1 : Real.exp 1 < 2.7182818286 := Real.exp_one_lt_d9
  have h2 : Real.exp 10 = Real.exp 1 ^ 10 := by
    rw [← Real.exp_nat_mul]
    norm_num
  have h3 : Real.exp 1 ^ 10 < 2.7182818286 ^ 10 :=
    pow_lt_pow_left h1 (Real.exp_pos 1).le (by norm_num)
  have h4 : (2.7182818286 : ℝ) ^ 10 < 1e7 := by norm_num
  have h5 : Real.exp 10 < 1e7 := by linarith
  have h6 : (1e7 : ℝ)⁻¹ < (Real.exp 10)⁻¹ :=
    inv_lt_inv_of_lt (Real.exp_pos 10) h5
  rw [Real.exp_neg]
  calc (1e-7 : ℝ) = (1e7 : ℝ)⁻¹ := by norm_num
    _ < (Real.exp 10)⁻¹ := h6

/-- The raw (pre-clamp) cross-entropy loss of `fc2BiasNet 20` on the
zero input at label `1` exceeds the `10.0f` ceiling. -/
theorem raw_loss_exceeds_ceiling :
    10 < -Real.log (max ((Activation.softmax [20, 0]).getD 1 0) (1e-7)) := by
  have hp : (Activation.softmax [20, 0]).getD 1 0 =
      Real.exp (-20) / (1 + Real.exp (-20)) := by
    rw [softmax_pair 20 (by norm_num)]
    rfl
  have hlt : Real.exp (-20) / (1 + Real.exp (-20)) < Real.exp (-10) := by
    have h1 : Real.exp (-20) / (1 + Real.exp (-20)) < Real.exp (-20) :=
      div_lt_self (Real.exp_pos _) (by have := Real.exp_pos (-20); linarith)
    have h2 : Real.exp (-20) < Real.exp (-10) := Real.exp_lt_exp.mpr (by norm_num)
    linarith
  have hmax : max ((Activation.softmax [20, 0]).getD 1 0) (1e-7) <
      Real.exp (-10) := by
    rw [hp]
    exact max_lt hlt exp_neg_ten_large
  have hpos : (0 : ℝ) < max ((Activation.softmax [20, 0]).getD 1 0) (1e-7) :=
    lt_of_lt_of_le (by norm_num) (le_max_right _ _)
  have hlog : Real.log (max ((Activation.softmax [20, 0]).getD 1 0) (1e-7)) <
      -10 := by
    have := Real.log_lt_log hpos hmax
    rwa [Real.log_exp] at this
  linarith

/-- The clamped loss of `fc2BiasNet 20` on the zero input at label `1`
hits the ceiling exactly. -/
theorem clamped_loss_eq_ten :
    SimpleCNN.compute_loss (Activation.softmax [20, 0]) 1 = 10 := by
  unfold SimpleCNN.compute_loss
  rw [show ((1 : ℤ).toNat) = 1 from rfl]
  exact min_eq_right (le_of_lt raw_loss_exceeds_ceiling)

/-- **C9 counterexample.** A sample whose raw cross-entropy loss exceeds
the `10.0f` ceiling is *not* skipped by `train_batch`: on the network
`fc2BiasNet 20` and the zero-feature sample with label `1`, the raw loss
exceeds `10`, yet the returned batch loss is `10` (the clamped loss of
the sample, counted as valid) and not `0` (the value returned when every
sample is skipped). -/
theorem C9_counterexample :
    (SimpleCNN.train_batch (fc2BiasNet 20) [⟨1, zeros6⟩] (1/1000)).1 = 10 ∧
    10 < -Real.log (max ((Activation.softmax [20, 0]).getD 1 0) (1e-7)) ∧
    (10 : ℝ) ≠ 0 := by
  refine ⟨?_, raw_loss_exceeds_ceiling, by norm_num⟩
  unfold SimpleCNN.train_batch
  simp only [List.foldl_cons, List.foldl_nil]
  unfold SimpleCNN.trainSampleStep
  rw [fc2BiasNet_forwardChecked 20]
  simp only [SimpleCNN.lossIsNanOrInf, Bool.false_eq_true, if_false,
    clamped_loss_eq_ten]
  norm_num

/-- **C9 (amended).** The per-sample boundary of `train_batch` behaves
as follows: a sample whose features fail the finiteness check is skipped
entirely (the thrown error is caught; the batch result is as if the
sample were absent); the loss is *clamped* at the ceiling `10` by
`compute_loss` rather than the sample being skipped — every sample whose
forward pass succeeds is counted as valid and contributes its (possibly
clamped) loss; and the returned batch loss is the average over the valid
samples. -/
theorem C9_train_batch_per_sample (net : SimpleCNN) (lr : ℝ) (s : Sample)
    (rest : List Sample) :
    (s.features.all CFloat.isFinite = false →
      SimpleCNN.train_batch net (s :: rest) lr =
        SimpleCNN.train_batch net rest lr) ∧
    (∀ (output : List ℝ) (label : ℤ),
      SimpleCNN.compute_loss output label ≤ 10) ∧
    (∀ cache, SimpleCNN.forwardChecked net s.features = Except.ok cache →
      (SimpleCNN.train_batch net [s] lr).1 =
        SimpleCNN.compute_loss cache.probs s.label) := by
  refine ⟨?_, fun output label => min_le_right _ _, ?_⟩
  · intro h
    have hstep : SimpleCNN.trainSampleStep lr ⟨net, 0, 0⟩ s = ⟨net, 0, 0⟩ := by
      unfold SimpleCNN.trainSampleStep SimpleCNN.forwardChecked
      rw [if_neg (by rw [h]; exact Bool.false_ne_true)]
    unfold SimpleCNN.train_batch
    rw [List.foldl_cons, hstep]
  · intro cache hc
    unfold SimpleCNN.train_batch
    simp only [List.foldl_cons, List.foldl_nil]
    unfold SimpleCNN.trainSampleStep
    rw [hc]
    simp only [SimpleCNN.lossIsNanOrInf, Bool.false_eq_true, if_false]
    norm_num

/-- The forward cache of `fc2BiasNet 20` on the zero input, used by the
witness below. -/
noncomputable def cache20 : SimpleCNN.Cache :=
  ⟨List.replicate 6 0, List.replicate 4 0, List.replicate 4 0,
   List.replicate 16 0, Activation.softmax [20, 0]⟩

/-- Witness for C9: the non-finite-skip branch discharged on a NaN
sample, and the valid-sample branch discharged on the zero sample. -/
theorem C9_train_batch_per_sample_witness :
    ((⟨0, [CFloat.nan]⟩ : Sample).features.all CFloat.isFinite = false ∧
     SimpleCNN.train_batch zeroNet [⟨0, [CFloat.nan]⟩] 1 =
       SimpleCNN.train_batch zeroNet [] 1) ∧
    (SimpleCNN.forwardChecked (fc2BiasNet 20) (⟨1, zeros6⟩ : Sample).features =
       Except.ok cache20 ∧
     (SimpleCNN.train_batch (fc2BiasNet 20) [⟨1, zeros6⟩] 1).1 =
       SimpleCNN.compute_loss cache20.probs (⟨1, zeros6⟩ : Sample).label) := by
  have hfin : (⟨0, [CFloat.nan]⟩ : Sample).features.all CFloat.isFinite = false :=
    rfl
  have hok : SimpleCNN.forwardChecked (fc2BiasNet 20)
      (⟨1, zeros6⟩ : Sample).features = Except.ok cache20 :=
    fc2BiasNet_forwardChecked 20
  exact ⟨⟨hfin, (C9_train_batch_per_sample zeroNet 1 _ []).1 hfin⟩,
    ⟨hok, (C9_train_batch_per_sample (fc2BiasNet 20) 1 _ []).2.2 cache20 hok⟩⟩

/-! ## Structure of the parsed feature vectors -/

theorem packetFeatureList_length (recs : List (ℤ × ℤ)) :
    (packetFeatureList recs).length = 2 * recs.length := by
  induction recs with
  | nil => rfl
  | cons r t ih =>
    unfold packetFeatureList at ih ⊢
    rw [List.flatMap_cons, List.length_append, ih, List.length_cons]
    simp
    omega

theorem statsBlock_nil (directions : List ℝ) : statsBlock [] directions = [] := by
  unfold statsBlock
  rw [if_pos rfl]

theorem statsBlock_length (sizes directions : List ℝ) (h : sizes ≠ []) :
    (statsBlock sizes directions).length = 6 := by
  unfold statsBlock
  rw [if_neg h]
  rfl

theorem sampleFeatures_nil : sampleFeatures [] = [] := by
  unfold sampleFeatures packetFeatureList packetSizes packetDirections
  rw [List.flatMap_nil, List.map_nil, statsBlock_nil]
  rfl

theorem packetSizes_ne_nil (recs : List (ℤ × ℤ)) (h : recs ≠ []) :
    packetSizes recs ≠ [] := by
  unfold packetSizes
  simpa using h

theorem sampleFeatures_length (recs : List (ℤ × ℤ)) (h : recs ≠ []) :
    (sampleFeatures recs).length = 2 * recs.length + 6 := by
  unfold sampleFeatures
  rw [List.length_append, packetFeatureList_length, List.length_map,
    statsBlock_length _ _ (packetSizes_ne_nil recs h)]

/-- What `normalize_features` produces on a freshly parsed sample: a row
with no valid record becomes `max_sequence_length` zero-pairs with no
statistics block; a row with records keeps its packet features, gets
zero-padding up to `max_sequence_length` pairs, and carries the
statistics block in the final six positions. -/
theorem normalizeSample_sampleFeatures (maxSeq : ℕ) (lab : ℤ)
    (recs : List (ℤ × ℤ)) (hle : recs.length ≤ maxSeq) :
    normalizeSample maxSeq ⟨lab, sampleFeatures recs⟩ =
      if recs = [] then
        (⟨lab, List.replicate (maxSeq * 2) (CFloat.val 0)⟩ : Sample)
      else
        ⟨lab, packetFeatureList recs ++
          (List.replicate ((maxSeq - recs.length) * 2) (CFloat.val 0) ++
            (statsBlock (packetSizes recs) (packetDirections recs)).map
              CFloat.val)⟩ := by
  by_cases hrec : recs = []
  · subst hrec
    rw [if_pos rfl]
    unfold normalizeSample
    rw [sampleFeatures_nil]
    simp only [List.length_nil, PACKET_FEATURES, STATS_FEATURES]
    norm_num
  · rw [if_neg hrec]
    unfold normalizeSample
    have hlen := sampleFeatures_length recs hrec
    have hstats : (statsBlock (packetSizes recs) (packetDirections recs)).length
        = 6 := statsBlock_length _ _ (packetSizes_ne_nil recs hrec)
    have hA := packetFeatureList_length recs
    simp only [hlen, STATS_FEATURES, PACKET_FEATURES]
    have h6 : 6 ≤ 2 * recs.length + 6 := by omega
    rw [if_pos h6, if_pos h6]
    have hsub : 2 * recs.length + 6 - 6 = (packetFeatureList recs).length := by
      omega
    have hdrop : (sampleFeatures recs).drop (2 * recs.length + 6 - 6) =
        (statsBlock (packetSizes recs) (packetDirections recs)).map
          CFloat.val := by
      rw [hsub]
      unfold sampleFeatures
      exact List.drop_left _ _
    have htake : (sampleFeatures recs).take (2 * recs.length + 6 - 6) =
        packetFeatureList recs := by
      rw [hsub]
      unfold sampleFeatures
      exact List.take_left _ _
    rw [hdrop, htake, hA]
    have hcur : 2 * recs.length / 2 = recs.length := by omega
    rw [hcur]
    by_cases hk : recs.length < maxSeq
    · rw [if_pos hk]
      rw [List.append_assoc]
    · rw [if_neg hk]
      have : maxSeq = recs.length := by omega
      simp [this]

/-! ## The row loop of `load_data` -/

/-- A data row yields a sample exactly when it is non-empty and both
`getline` calls of the row split succeed; the validity of its records
plays no part. -/
def rowKeeps (line : List Char) : Bool :=
  !line.isEmpty && (rowSplit line).isSome

/-- Case analysis of one loader iteration: either the row is not kept
(empty line, or the label/feature split fails) and the state is
unchanged, or the row is kept and exactly one sample — with the parsed
records of the feature string, however few — is appended, with
`num_labels` and `max_sequence_length` updated. -/
theorem loadLine_cases (st : LoadState) (line : List Char) (st' : LoadState)
    (h : loadLine st line = .ok st') :
    (rowKeeps line = false ∧ st' = st) ∨
    (rowKeeps line = true ∧ ∃ (lab : ℤ) (fstr : List Char),
      st'.samples = st.samples ++ [⟨lab, sampleFeatures (packetRecords fstr)⟩] ∧
      st'.num_labels = max st.num_labels (lab + 1) ∧
      st'.max_sequence_length =
        max st.max_sequence_length (packetRecords fstr).length) := by
  unfold loadLine at h
  by_cases hempty : line = []
  · rw [if_pos hempty] at h
    injection h with h
    left
    exact ⟨by simp [rowKeeps, hempty], h.symm⟩
  · rw [if_neg hempty] at h
    cases hsplit : rowSplit line with
    | none =>
      rw [hsplit] at h
      injection h with h
      left
      exact ⟨by simp [rowKeeps, hsplit], h.symm⟩
    | some p =>
      obtain ⟨lstr, fstr⟩ := p
      rw [hsplit] at h
      dsimp only at h
      cases hstoi : stoi? lstr with
      | none =>
        rw [hstoi] at h
        cases h
      | some lab =>
        rw [hstoi] at h
        injection h with h
        right
        refine ⟨by simp [rowKeeps, hsplit, hempty], lab, fstr, ?_, ?_, ?_⟩ <;>
          rw [← h]

/-- The well-formedness carried by every loaded sample: its features are
the parsed features of some record list no longer than the current
`max_sequence_length`. -/
def sampleWF (ms : ℕ) (s : Sample) : Prop :=
  ∃ recs : List (ℤ × ℤ),
    s.features = sampleFeatures recs ∧ recs.length ≤ ms

theorem foldlM_loadLine_inv (ls : List (List Char)) : ∀ (st0 st : LoadState),
    ls.foldlM loadLine st0 = Except.ok st →
    (∀ s ∈ st0.samples, sampleWF st0.max_sequence_length s) →
    st0.max_sequence_length ≤ st.max_sequence_length ∧
    ∀ s ∈ st.samples, sampleWF st.max_sequence_length s := by
  induction ls with
  | nil =>
    intro st0 st h hwf
    rw [List.foldlM_nil] at h
    injection h with h
    subst h
    exact ⟨le_rfl, hwf⟩
  | cons l ls ih =>
    intro st0 st h hwf
    rw [List.foldlM_cons] at h
    cases heq : loadLine st0 l with
    | error e =>
      rw [heq] at h
      exact absurd h (by simp [Bind.bind, Except.bind])
    | ok st1 =>
      rw [heq] at h
      simp only [Bind.bind, Except.bind] at h
      rcases loadLine_cases st0 l st1 heq with ⟨_, rfl⟩ | ⟨_, lab, fstr, hsm, _, hms⟩
      · exact ih _ st h hwf
      · have hmono : st0.max_sequence_length ≤ st1.max_sequence_length := by
          rw [hms]
          exact le_max_left _ _
        have hwf1 : ∀ s ∈ st1.samples, sampleWF st1.max_sequence_length s := by
          intro s hs
          rw [hsm] at hs
          rcases List.mem_append.mp hs with hold | hnew
          · obtain ⟨recs, hf, hlen⟩ := hwf s hold
            exact ⟨recs, hf, le_trans hlen hmono⟩
          · rw [List.mem_singleton] at hnew
            subst hnew
            refine ⟨packetRecords fstr, rfl, ?_⟩
            rw [hms]
            exact le_max_right _ _
        have := ih st1 st h hwf1
        exact ⟨le_trans hmono this.1, this.2⟩

/-- Every sample in the loaded state is the parse of some record list
bounded by the final `max_sequence_length`. -/
theorem load_data_invariant (lines : List (List Char)) (st : LoadState)
    (h : load_data lines = Except.ok st) :
    ∀ s ∈ st.samples, sampleWF st.max_sequence_length s :=
  (foldlM_loadLine_inv (lines.drop 1) ⟨[], 0, 0⟩ st h (by simp)).2

theorem foldlM_loadLine_count (ls : List (List Char)) : ∀ (st0 st : LoadState),
    ls.foldlM loadLine st0 = Except.ok st →
    st.samples.length = st0.samples.length + (ls.filter rowKeeps).length := by
  induction ls with
  | nil =>
    intro st0 st h
    rw [List.foldlM_nil] at h
    injection h with h
    subst h
    simp
  | cons l ls ih =>
    intro st0 st h
    rw [List.foldlM_cons] at h
    cases heq : loadLine st0 l with
    | error e =>
      rw [heq] at h
      exact absurd h (by simp [Bind.bind, Except.bind])
    | ok st1 =>
      rw [heq] at h
      simp only [Bind.bind, Except.bind] at h
      rcases loadLine_cases st0 l st1 heq with ⟨hk, rfl⟩ | ⟨hk, lab, fstr, hsm, _, _⟩
      · rw [ih _ st h, List.filter_cons, hk]
        simp
      · rw [ih st1 st h, List.filter_cons, hk, hsm]
        simp
        omega

/-! ## Evaluating the loader on concrete files -/

/-- One loader iteration on a well-formed row. -/
theorem loadLine_valid (st : LoadState) (line lstr fstr : List Char) (lab : ℤ)
    (h1 : line ≠ []) (h2 : rowSplit line = some (lstr, fstr))
    (h3 : stoi? lstr = some lab) :
    loadLine st line = Except.ok
      ⟨st.samples ++ [⟨lab, sampleFeatures (packetRecords fstr)⟩],
       max st.num_labels (lab + 1),
       max st.max_sequence_length (packetRecords fstr).length⟩ := by
  unfold loadLine
  rw [if_neg h1, h2]
  dsimp only
  rw [h3]

/-- `load_data` on a two-line file (header plus one well-formed row). -/
theorem load_data_single (header row lstr fstr : List Char) (lab : ℤ)
    (h1 : row ≠ []) (h2 : rowSplit row = some (lstr, fstr))
    (h3 : stoi? lstr = some lab) :
    load_data [header, row] = Except.ok
      ⟨[⟨lab, sampleFeatures (packetRecords fstr)⟩], max 0 (lab + 1),
       (packetRecords fstr).length⟩ := by
  unfold load_data
  simp only [List.drop_succ_cons, List.drop_zero]
  rw [List.foldlM_cons, loadLine_valid ⟨[], 0, 0⟩ row lstr fstr lab h1 h2 h3]
  simp [Bind.bind, Except.bind, pure, Except.pure]

/-! ## C3: zero-valid-record rows are not dropped -/

/-- **C3 counterexample.** The row `"0,x"` has a feature string yielding
zero valid records, yet the pipeline keeps it: the resulting Dataset is
`[⟨label 0, empty features⟩]` (with `num_labels = 1` and
`max_sequence_length = 0`), not the empty Dataset the claim requires. -/
theorem C3_counterexample :
    packetRecords "x".data = [] ∧
    processorCorpus ["site_label,packet_features".data, "0,x".data] =
      Except.ok ([⟨0, []⟩], 1, 0) := by
  refine ⟨by decide, ?_⟩
  have hrec : packetRecords "x".data = [] := by decide
  have hload := load_data_single "site_label,packet_features".data "0,x".data
    "0".data "x".data 0 (by decide) (by decide) (by decide)
  rw [hrec] at hload
  unfold processorCorpus
  rw [hload]
  simp only [Except.map, List.map_cons, List.map_nil, List.length_nil]
  have hnorm : normalizeSample 0 ⟨0, sampleFeatures []⟩ = ⟨0, []⟩ := by
    rw [normalizeSample_sampleFeatures 0 0 [] (by simp)]
    simp
  rw [hnorm]
  norm_num

/-- **C3 (amended).** No row is dropped for lack of valid records: the
number of samples in the Dataset equals the number of data lines that
are non-empty and split into a label and a non-empty feature text —
regardless of how many (possibly zero) of their records are valid.  Rows
are only dropped when the second `getline` fails (nothing after the
label comma), and a label on which `std::stoi` throws aborts the load
instead of dropping the row. -/
theorem C3_rows_kept (lines : List (List Char)) (st : LoadState)
    (hok : load_data lines = Except.ok st) :
    st.samples.length = ((lines.drop 1).filter rowKeeps).length := by
  have h := foldlM_loadLine_count (lines.drop 1) ⟨[], 0, 0⟩ st hok
  simpa using h

/-- Witness for C3: a file whose only data row has zero valid records
still contributes one sample. -/
theorem C3_rows_kept_witness :
    load_data ["site_label,packet_features".data, "0,zz".data] =
      Except.ok ⟨[⟨0, sampleFeatures (packetRecords "zz".data)⟩], 1, 0⟩ ∧
    ([⟨0, sampleFeatures (packetRecords "zz".data)⟩] : List Sample).length =
      ((["site_label,packet_features".data, "0,zz".data].drop 1).filter
        rowKeeps).length := by
  have hrec : (packetRecords "zz".data).length = 0 := by decide
  have hload := load_data_single "site_label,packet_features".data "0,zz".data
    "0".data "zz".data 0 (by decide) (by decide) (by decide)
  rw [hrec] at hload
  have hload' : load_data ["site_label,packet_features".data, "0,zz".data] =
      Except.ok ⟨[⟨0, sampleFeatures (packetRecords "zz".data)⟩], 1, 0⟩ := by
    rw [hload]
    norm_num
  refine ⟨hload', ?_⟩
  have h := C3_rows_kept ["site_label,packet_features".data, "0,zz".data]
    ⟨[⟨0, sampleFeatures (packetRecords "zz".data)⟩], 1, 0⟩ hload'
  exact h

/-! ## C5: there is no class-balancing step -/

/-- The label of a sample is untouched by normalisation. -/
theorem normalizeSample_label (m : ℕ) (s : Sample) :
    (normalizeSample m s).label = s.label := rfl

/-- **C5 counterexample.** For the file with rows labelled `0, 0, 1`,
the corpus handed to `shuffle_and_split` still has two samples of label
`0` and one of label `1`: the per-label counts are *not* all equal to
the pre-balancing maximum `2`, because the pipeline
(`load_data; normalize_features; shuffle_and_split`) contains no
balancing step at all. -/
theorem C5_counterexample :
    (processorCorpus ["site_label,packet_features".data, "0,100_0".data,
        "0,100_0".data, "1,100_0".data]).map
      (fun t => t.1.map Sample.label) = Except.ok [0, 0, 1] ∧
    ([(0 : ℤ), 0, 1].count 0 = 2 ∧ [(0 : ℤ), 0, 1].count 1 = 1) ∧
    (1 : ℕ) ≠ 2 := by
  refine ⟨?_, by decide, by decide⟩
  have h1 : rowSplit "0,100_0".data = some ("0".data, "100_0".data) := by decide
  have h2 : rowSplit "1,100_0".data = some ("1".data, "100_0".data) := by decide
  have hs0 : stoi? "0".data = some 0 := by decide
  have hs1 : stoi? "1".data = some 1 := by decide
  have hlen : (packetRecords "100_0".data).length = 1 := by decide
  unfold load_data at *
  unfold processorCorpus load_data
  simp only [List.drop_succ_cons, List.drop_zero]
  rw [List.foldlM_cons,
    loadLine_valid ⟨[], 0, 0⟩ _ _ _ 0 (by decide) h1 hs0]
  simp only [Bind.bind, Except.bind]
  rw [List.foldlM_cons,
    loadLine_valid _ _ _ _ 0 (by decide) h1 hs0]
  simp only [Bind.bind, Except.bind]
  rw [List.foldlM_cons,
    loadLine_valid _ _ _ _ 1 (by decide) h2 hs1]
  simp only [Bind.bind, Except.bind, List.foldlM_nil, pure, Except.pure,
    Except.map, hlen]
  simp [normalizeSample_label]

/-- **C5 (amended).** The `TLSDataProcessor` pipeline performs no class
balancing: the corpus that reaches `shuffle_and_split` carries exactly
the labels of the loaded samples, in order — per-label counts equal the
loaded counts and need not be equal to each other. -/
theorem C5_no_balancing (lines : List (List Char)) (ss : List Sample)
    (nl : ℤ) (ms : ℕ)
    (hok : processorCorpus lines = Except.ok (ss, nl, ms)) :
    ∃ st : LoadState, load_data lines = Except.ok st ∧
      ss.map Sample.label = st.samples.map Sample.label ∧
      ss.length = st.samples.length := by
  unfold processorCorpus at hok
  cases hld : load_data lines with
  | error e =>
    rw [hld] at hok
    cases hok
  | ok st =>
    rw [hld] at hok
    simp only [Except.map] at hok
    injection hok with hok
    refine ⟨st, rfl, ?_, ?_⟩
    · have hss : ss = st.samples.map (normalizeSample st.max_sequence_length) := by
        have := congrArg Prod.fst hok
        simpa using this.symm
      rw [hss, List.map_map]
      rfl
    · have hss : ss = st.samples.map (normalizeSample st.max_sequence_length) := by
        have := congrArg Prod.fst hok
        simpa using this.symm
      rw [hss, List.length_map]

/-- Witness for C5 on a concrete two-row file. -/
theorem C5_no_balancing_witness :
    (∃ st : LoadState,
      load_data ["site_label,packet_features".data, "0,100_0".data] =
        Except.ok st ∧
      ((processorCorpus ["site_label,packet_features".data,
          "0,100_0".data]).toOption.map
        (fun t => t.1.map Sample.label) = some (st.samples.map Sample.label))) := by
  have hload := load_data_single "site_label,packet_features".data
    "0,100_0".data "0".data "100_0".data 0 (by decide) (by decide) (by decide)
  have hcorp : processorCorpus ["site_label,packet_features".data,
      "0,100_0".data] = Except.ok
      ([normalizeSample (packetRecords "100_0".data).length
          ⟨0, sampleFeatures (packetRecords "100_0".data)⟩], max 0 (0 + 1),
        (packetRecords "100_0".data).length) := by
    unfold processorCorpus
    rw [hload]
    simp [Except.map]
  obtain ⟨st, hst, hlab, _⟩ := C5_no_balancing _ _ _ _ hcorp
  exact ⟨st, hst, by rw [hcorp, hst] at *; simp [Except.toOption]; exact hlab⟩

/-! ## C2: the feature-length invariant -/

/-- **C2 (amended).** Every sample of the final corpus is characterised
by its record list `recs` (with `recs.length ≤ max_sequence_length`):
when the row had at least one valid record the feature vector has length
`max_sequence_length * 2 + 6` and its final six entries are the
statistics block; but when the row had **zero** valid records the vector
is just `max_sequence_length * 2` zeros, with *no* statistics block —
the claimed invariant holds only for samples with at least one valid
record. -/
theorem C2_feature_length (lines : List (List Char)) (ss : List Sample)
    (nl : ℤ) (ms : ℕ)
    (hok : processorCorpus lines = Except.ok (ss, nl, ms))
    (s : Sample) (hs : s ∈ ss) :
    ∃ recs : List (ℤ × ℤ), recs.length ≤ ms ∧
      ((recs ≠ [] ∧ s.features.length = ms * 2 + 6 ∧
        s.features.drop (ms * 2) =
          (statsBlock (packetSizes recs) (packetDirections recs)).map
            CFloat.val) ∨
       (recs = [] ∧ s.features = List.replicate (ms * 2) (CFloat.val 0))) := by
  unfold processorCorpus at hok
  cases hld : load_data lines with
  | error e =>
    rw [hld] at hok
    cases hok
  | ok st =>
    rw [hld] at hok
    simp only [Except.map] at hok
    injection hok with hok
    have hms : ms = st.max_sequence_length := by
      have := congrArg (fun t => t.2.2) hok
      simpa using this.symm
    have hss : ss = st.samples.map (normalizeSample st.max_sequence_length) := by
      have := congrArg Prod.fst hok
      simpa using this.symm
    subst hms
    rw [hss] at hs
    obtain ⟨s0, hs0, rfl⟩ := List.mem_map.mp hs
    obtain ⟨recs, hf, hlen⟩ := load_data_invariant lines st hld s0 hs0
    have hs0eta : s0 = ⟨s0.label, sampleFeatures recs⟩ := by
      cases s0
      simpa using hf
    rw [hs0eta, normalizeSample_sampleFeatures _ _ _ hlen]
    refine ⟨recs, hlen, ?_⟩
    by_cases hrec : recs = []
    · right
      rw [if_pos hrec]
      exact ⟨hrec, rfl⟩
    · left
      rw [if_neg hrec]
      have hA := packetFeatureList_length recs
      have hstats := statsBlock_length (packetSizes recs) (packetDirections recs)
        (packetSizes_ne_nil recs hrec)
      refine ⟨hrec, ?_, ?_⟩
      · simp only [List.length_append, hA, List.length_replicate,
          List.length_map, hstats]
        omega
      · simp only [← List.append_assoc]
        rw [List.drop_left']
        rw [List.length_append, hA, List.length_replicate]
        omega

/-- Witness for C2 on the one-row file `"0,100_0"`. -/
theorem C2_feature_length_witness :
    (processorCorpus ["site_label,packet_features".data, "0,100_0".data] =
      Except.ok ([normalizeSample 1
        ⟨0, sampleFeatures (packetRecords "100_0".data)⟩], 1, 1) ∧
     normalizeSample 1 ⟨0, sampleFeatures (packetRecords "100_0".data)⟩ ∈
       [normalizeSample 1 ⟨0, sampleFeatures (packetRecords "100_0".data)⟩]) ∧
    (∃ recs : List (ℤ × ℤ), recs.length ≤ 1 ∧
      ((recs ≠ [] ∧
        (normalizeSample 1
          ⟨0, sampleFeatures (packetRecords "100_0".data)⟩).features.length =
            1 * 2 + 6 ∧
        (normalizeSample 1
          ⟨0, sampleFeatures (packetRecords "100_0".data)⟩).features.drop
            (1 * 2) =
          (statsBlock (packetSizes recs) (packetDirections recs)).map
            CFloat.val) ∨
       (recs = [] ∧
        (normalizeSample 1
          ⟨0, sampleFeatures (packetRecords "100_0".data)⟩).features =
          List.replicate (1 * 2) (CFloat.val 0)))) := by
  have hlen : (packetRecords "100_0".data).length = 1 := by decide
  have hload := load_data_single "site_label,packet_features".data
    "0,100_0".data "0".data "100_0".data 0 (by decide) (by decide) (by decide)
  rw [hlen] at hload
  have hcorp : processorCorpus ["site_label,packet_features".data,
      "0,100_0".data] = Except.ok ([normalizeSample 1
        ⟨0, sampleFeatures (packetRecords "100_0".data)⟩], 1, 1) := by
    unfold processorCorpus
    rw [hload]
    simp [Except.map]
  have hmem : normalizeSample 1
      ⟨0, sampleFeatures (packetRecords "100_0".data)⟩ ∈
      [normalizeSample 1 ⟨0, sampleFeatures (packetRecords "100_0".data)⟩] :=
    List.mem_singleton.mpr rfl
  exact ⟨⟨hcorp, hmem⟩, C2_feature_length _ _ _ _ hcorp _ hmem⟩

/-- **C2 counterexample.** In a file whose rows are `"0,100_0"` (one
valid record) and `"1,x"` (zero valid records), `max_sequence_length`
is `1` and the two final feature vectors have lengths `8` and `2`: the
second sample violates the claimed uniform length
`max_sequence_length*2 + 6 = 8`. -/
theorem C2_counterexample :
    (processorCorpus ["site_label,packet_features".data, "0,100_0".data,
        "1,x".data]).map
      (fun t => (t.1.map (fun s => s.features.length), t.2.2)) =
      Except.ok ([8, 2], 1) ∧
    (2 : ℕ) ≠ 1 * 2 + 6 := by
  refine ⟨?_, by norm_num⟩
  have h1 : rowSplit "0,100_0".data = some ("0".data, "100_0".data) := by decide
  have h2 : rowSplit "1,x".data = some ("1".data, "x".data) := by decide
  have hs0 : stoi? "0".data = some 0 := by decide
  have hs1 : stoi? "1".data = some 1 := by decide
  have hlenA : (packetRecords "100_0".data).length = 1 := by decide
  have hlenB : (packetRecords "x".data) = [] := by decide
  have hrecA : packetRecords "100_0".data ≠ [] := by decide
  unfold processorCorpus load_data
  simp only [List.drop_succ_cons, List.drop_zero]
  rw [List.foldlM_cons,
    loadLine_valid ⟨[], 0, 0⟩ _ _ _ 0 (by decide) h1 hs0]
  simp only [Bind.bind, Except.bind]
  rw [List.foldlM_cons,
    loadLine_valid _ _ _ _ 1 (by decide) h2 hs1]
  simp only [Bind.bind, Except.bind, List.foldlM_nil, pure, Except.pure,
    Except.map, hlenA, hlenB]
  norm_num
  constructor
  · -- the valid-record sample has length 8
    rw [normalizeSample_sampleFeatures 1 0 (packetRecords "100_0".data)
      (by rw [hlenA]), if_neg hrecA]
    simp only [List.length_append, packetFeatureList_length, hlenA,
      List.length_replicate, List.length_map,
      statsBlock_length _ _ (packetSizes_ne_nil _ hrecA)]
  · -- the zero-record sample has length 2
    rw [normalizeSample_sampleFeatures 1 1 [] (by simp), if_pos rfl]
    simp

/-! ## C8: the two size normalisations -/

/-- For sizes whose log-ratio already lies in `[0, 1]`, the clamp of
`logNorm` is the identity. -/
theorem logNorm_in_range (n : ℤ) (h0 : 0 ≤ n) (h1 : (n : ℝ) + 1 ≤ 1501) :
    logNorm n = Real.log ((n : ℝ) + 1) / Real.log 1501 := by
  unfold logNorm
  have hl1501 : 0 < Real.log 1501 := Real.log_pos (by norm_num)
  have hn1 : (1 : ℝ) ≤ (n : ℝ) + 1 := by
    have : (0 : ℝ) ≤ (n : ℝ) := by exact_mod_cast h0
    linarith
  have hlogpos : 0 ≤ Real.log ((n : ℝ) + 1) := Real.log_nonneg hn1
  have hle : Real.log ((n : ℝ) + 1) ≤ Real.log 1501 := by
    apply Real.log_le_log (by linarith) h1
  have hdiv0 : 0 ≤ Real.log ((n : ℝ) + 1) / Real.log 1501 :=
    div_nonneg hlogpos hl1501.le
  have hdiv1 : Real.log ((n : ℝ) + 1) / Real.log 1501 ≤ 1 :=
    (div_le_one hl1501).mpr hle
  rw [max_eq_right hdiv0, min_eq_right hdiv1]

theorem logNorm_100_val : logNorm 100 = Real.log 101 / Real.log 1501 := by
  rw [logNorm_in_range 100 (by norm_num) (by norm_num)]
  norm_num

theorem half_lt_logNorm_100 : (1 : ℝ) / 2 < logNorm 100 := by
  rw [logNorm_100_val]
  have hl1501 : 0 < Real.log 1501 := Real.log_pos (by norm_num)
  rw [lt_div_iff hl1501]
  have h : Real.log 1501 < Real.log (101 ^ 2) :=
    Real.log_lt_log (by norm_num) (by norm_num)
  rw [Real.log_pow] at h
  push_cast at h
  linarith

/-- **C8 counterexample.** The predictor's feature loader normalises the
size `100` to `100/1500`, which differs from the training pipeline's
`logNorm 100 = log 101 / log 1501` (the former is `1/15 < 1/2`, the
latter exceeds `1/2`). -/
theorem C8_counterexample :
    load_features_from_file "100_0".data 2 = Except.ok [100 / 1500, 0] ∧
    (100 : ℝ) / 1500 ≠ logNorm 100 := by
  constructor
  · have htok : getlineTokens ';' "100_0".data = ["100_0".data] := by decide
    have hsp : splitAtChar '_' "100_0".data = ("100".data, some "0".data) := by
      decide
    have hsz : stoi? "100".data = some 100 := by decide
    have hd : stoi? "0".data = some 0 := by decide
    unfold load_features_from_file
    rw [htok]
    rw [List.foldlM_cons]
    simp only [hsp, hsz, hd, List.foldlM_nil, Bind.bind, Except.bind, pure,
      Except.pure]
    norm_num
  · intro h
    have h2 := half_lt_logNorm_100
    rw [← h] at h2
    norm_num at h2

/-- **C8 (amended).** The *training pipeline* normalises every packet
size as `clamp(log(size+1)/log(1501), 0, 1)` and the scenario of the
claim holds there: the CSV row `"0,100_0;200_1;300_0"` (with resulting
`max_sequence_length = 3`) produces a Sample with label 0 whose leading
features are `[logNorm 100, 0, logNorm 200, 1, logNorm 300, 0]` with
`logNorm 100 = log 101 / log 1501`.  The *predictor entry point*
however normalises sizes linearly as `size/1500` — without logarithm or
clamp — so the claim's "holds for both" part fails. -/
theorem C8_size_normalization :
    (processorCorpus ["site_label,packet_features".data,
        "0,100_0;200_1;300_0".data]).map
      (fun t => (t.1.map Sample.label, t.2.1, t.2.2)) =
      Except.ok ([0], 1, 3) ∧
    (processorCorpus ["site_label,packet_features".data,
        "0,100_0;200_1;300_0".data]).map
      (fun t => t.1.map (fun s => s.features.take 6)) =
      Except.ok [[CFloat.val (logNorm 100), CFloat.val 0,
        CFloat.val (logNorm 200), CFloat.val 1,
        CFloat.val (logNorm 300), CFloat.val 0]] ∧
    logNorm 100 = Real.log 101 / Real.log 1501 ∧
    load_features_from_file "100_0;200_1;300_0".data 12 =
      Except.ok [100 / 1500, 0, 200 / 1500, 1, 300 / 1500, 0,
        0, 0, 0, 0, 0, 0] := by
  have hrec : packetRecords "100_0;200_1;300_0".data =
      [(100, 0), (200, 1), (300, 0)] := by decide
  have hlen : (packetRecords "100_0;200_1;300_0".data).length = 3 := by decide
  have hload := load_data_single "site_label,packet_features".data
    "0,100_0;200_1;300_0".data "0".data "100_0;200_1;300_0".data 0
    (by decide) (by decide) (by decide)
  rw [hlen] at hload
  have hcorp : processorCorpus ["site_label,packet_features".data,
      "0,100_0;200_1;300_0".data] = Except.ok
      ([normalizeSample 3 ⟨0, sampleFeatures
          (packetRecords "100_0;200_1;300_0".data)⟩], 1, 3) := by
    unfold processorCorpus
    rw [hload]
    simp [Except.map]
  refine ⟨?_, ?_, logNorm_100_val, ?_⟩
  · rw [hcorp]
    simp [Except.map, normalizeSample_label]
  · rw [hcorp]
    simp only [Except.map, List.map_cons, List.map_nil]
    have hnorm := normalizeSample_sampleFeatures 3 0
      (packetRecords "100_0;200_1;300_0".data) (by rw [hlen])
    rw [if_neg (by rw [hrec]; simp)] at hnorm
    rw [hnorm]
    simp only [hrec, hlen]
    norm_num
    have hA : packetFeatureList [((100 : ℤ), (0 : ℤ)), (200, 1), (300, 0)] =
        [CFloat.val (logNorm 100), CFloat.val 0, CFloat.val (logNorm 200),
         CFloat.val 1, CFloat.val (logNorm 300), CFloat.val 0] := by
      unfold packetFeatureList
      simp only [List.flatMap_cons, List.flatMap_nil]
      norm_num
    rw [hA]
    rfl
  · have htok : getlineTokens ';' "100_0;200_1;300_0".data =
        ["100_0".data, "200_1".data, "300_0".data] := by decide
    have hsp1 : splitAtChar '_' "100_0".data = ("100".data, some "0".data) := by
      decide
    have hsp2 : splitAtChar '_' "200_1".data = ("200".data, some "1".data) := by
      decide
    have hsp3 : splitAtChar '_' "300_0".data = ("300".data, some "0".data) := by
      decide
    unfold load_features_from_file
    rw [htok]
    rw [List.foldlM_cons]
    simp only [hsp1, show stoi? "100".data = some 100 from by decide,
      show stoi? "0".data = some 0 from by decide, Bind.bind, Except.bind,
      pure, Except.pure]
    rw [List.foldlM_cons]
    simp only [hsp2, show stoi? "200".data = some 200 from by decide,
      show stoi? "1".data = some 1 from by decide, Bind.bind, Except.bind,
      pure, Except.pure]
    rw [List.foldlM_cons]
    simp only [hsp3, show stoi? "300".data = some 300 from by decide,
      show stoi? "0".data = some 0 from by decide,
      List.foldlM_nil, Bind.bind, Except.bind, pure, Except.pure]
    norm_num [List.replicate]

end TLSAnalyzer
